import Mathlib

/-!
Shallow embedding of `kafka/cluster.py` (the `ClusterMetadata` cache) and
proofs of the specification claims about it.

Python dicts are modelled as association lists with insert-or-replace
(`upsertA`), preserving the source's last-write-wins semantics; the Python
listener `set` is a `Finset Nat` of callback handles; wall-clock time is an
explicit `now : Int` millisecond argument; the single-shot `Future` handle
is modelled by an id and a resolution table kept in the state.
-/

namespace KafkaCluster

/-- Association-list lookup (Python `dict` lookup / `dict.get`). -/
def lookupA {α β : Type} [DecidableEq α] (k : α) : List (α × β) → Option β
  | [] => none
  | (k1, v) :: rest => if k1 = k then some v else lookupA k rest

/-- Association-list insert-or-replace (Python `d[k] = v` / `d.update`):
replaces the value at an existing key in place, appends otherwise. -/
def upsertA {α β : Type} [DecidableEq α] (k : α) (v : β) : List (α × β) → List (α × β)
  | [] => [(k, v)]
  | (k1, v1) :: rest => if k1 = k then (k, v) :: rest else (k1, v1) :: upsertA k v rest

/-- The last element of a list satisfying a predicate, if any. -/
def lastMatch {α : Type} (p : α → Bool) : List α → Option α
  | [] => none
  | x :: xs =>
    match lastMatch p xs with
    | some y => some y
    | none => if p x then some x else none

/-- Key set of an association list. -/
def keysF {α β : Type} [DecidableEq α] (m : List (α × β)) : Finset α :=
  (m.map Prod.fst).toFinset

/-- Modelled from the spec: `BrokerMetadata` is the namedtuple
`{node_id, host, port}` from `kafka.common`, which is not under `src/`;
an immutable value identifying a broker node. -/
structure BrokerMetadata where
  node_id : Int
  host : String
  port : Int
deriving DecidableEq

/-- One partition record of a metadata response: the source destructures it
as `(_, partition, leader, _, _)`, so only the second and third fields are
consumed. -/
structure PartitionRecord where
  f0 : Int
  partition : Int
  leader : Int
  f3 : Int
  f4 : Int
deriving DecidableEq

/-- A raw metadata response: broker entries `(node_id, host, port)` and topic
entries `(error_code, topic_name, partition_records)`. -/
structure MetadataResponse where
  brokers : List (Int × String × Int)
  topics : List (Int × String × List PartitionRecord)
deriving DecidableEq

/-- Modelled from the spec: the error-kind registry of `kafka.common`
(not under `src/`) — a closed set of kinds with a catch-all. -/
inductive ErrorKind where
  | noError
  | unknownTopicOrPartition
  | leaderNotAvailable
  | invalidTopic
  | topicAuthorizationFailed
  | other (code : Int)
deriving DecidableEq

/-- Modelled from the spec: `Errors.for_code`, the numeric-code-to-error-kind
lookup of `kafka.common` (not under `src/`): code 0 means success
(`NoError`), the known per-topic codes map to their kinds, and every other
code maps to a catch-all kind. -/
def for_code (c : Int) : ErrorKind :=
  if c = 0 then ErrorKind.noError
  else if c = 3 then ErrorKind.unknownTopicOrPartition
  else if c = 5 then ErrorKind.leaderNotAvailable
  else if c = 17 then ErrorKind.invalidTopic
  else if c = 29 then ErrorKind.topicAuthorizationFailed
  else ErrorKind.other c

/-- An error value handed to `failed_update`: either an error kind
instantiated with a topic name (`Errors.for_code(code)(topic)`), or some
other driver-supplied failure. -/
inductive ClientError where
  | forTopic (kind : ErrorKind) (topic : String)
  | driverError (code : Int)
deriving DecidableEq

/-- Modelled from the spec: the pending-update handle (`kafka.future.Future`,
not under `src/`) is a one-shot cell that is created unresolved and then
resolved once with success or failure; `is_done` is true exactly once
resolved. Handles are modelled by ids, with their resolution recorded in a
table in the cluster state. -/
inductive FutureState where
  | pending
  | succeeded
  | failed (e : ClientError)
deriving DecidableEq

/-- The state of a `ClusterMetadata` object. `futures` records every handle
ever created together with its current resolution; `future` is the id of the
pending handle held in `self._future`, if any. -/
structure ClusterState where
  brokers : List (Int × BrokerMetadata)
  partitions : List (String × List (Int × Int))
  groups : List (String × Int)
  version : Nat
  last_refresh_ms : Int
  last_successful_refresh_ms : Int
  need_update : Bool
  future : Option Nat
  futures : List (Nat × FutureState)
  nextFutureId : Nat
  listeners : Finset Nat
  retry_backoff_ms : Int
  metadata_max_age_ms : Int
deriving DecidableEq

/-- Construction with explicit configuration (the `kwargs` of `__init__`). -/
def mkCluster (retry_backoff_ms metadata_max_age_ms : Int) : ClusterState :=
  { brokers := []
    partitions := []
    groups := []
    version := 0
    last_refresh_ms := 0
    last_successful_refresh_ms := 0
    need_update := false
    future := none
    futures := []
    nextFutureId := 0
    listeners := ∅
    retry_backoff_ms := retry_backoff_ms
    metadata_max_age_ms := metadata_max_age_ms }

/-- Construction with the class defaults `retry_backoff_ms = 100`,
`metadata_max_age_ms = 300000`. -/
def initCluster : ClusterState := mkCluster 100 300000

/-- `brokers()`: the set of all known `BrokerMetadata` values. -/
def ClusterState.brokersSet (s : ClusterState) : Finset BrokerMetadata :=
  (s.brokers.map Prod.snd).toFinset

/-- `broker_metadata(broker_id)`. -/
def broker_metadata (s : ClusterState) (broker_id : Int) : Option BrokerMetadata :=
  lookupA broker_id s.brokers

/-- `partitions_for_topic(topic)`: the set of partition indices for the
topic, or `none` when the topic is unknown. -/
def partitions_for_topic (s : ClusterState) (topic : String) : Option (Finset Int) :=
  (lookupA topic s.partitions).map keysF

/-- The `TopicPartition` key taken by `leader_for_partition`. -/
structure TopicPartition where
  topic : String
  partition : Int
deriving DecidableEq

/-- `leader_for_partition(partition)`. -/
def leader_for_partition (s : ClusterState) (tp : TopicPartition) : Option Int :=
  match lookupA tp.topic s.partitions with
  | none => none
  | some m => lookupA tp.partition m

/-- `coordinator_for_group(group)`. -/
def coordinator_for_group (s : ClusterState) (group : String) : Option Int :=
  lookupA group s.groups

/-- `topics()`. -/
def ClusterState.topicsSet (s : ClusterState) : Finset String :=
  (s.partitions.map Prod.fst).toFinset

/-- `ttl()`: milliseconds until metadata should be refreshed, with the
current wall-clock millisecond time passed explicitly. -/
def ttl (s : ClusterState) (now : Int) : Int :=
  let t := if s.need_update then 0
           else s.last_successful_refresh_ms + s.metadata_max_age_ms - now
  let retry := s.last_refresh_ms + s.retry_backoff_ms - now
  max (max t retry) 0

/-- `Future.is_done` for the handle with id `fid`: resolved (success or
failure), or unknown. -/
def futureIsDone (futures : List (Nat × FutureState)) (fid : Nat) : Bool :=
  match lookupA fid futures with
  | some FutureState.pending => false
  | _ => true

/-- `request_update()`: sets the need-update flag and returns the pending
handle, creating a fresh one exactly when none exists or the existing one is
already resolved. Returns the new state and the id of the returned handle. -/
def request_update (s : ClusterState) : ClusterState × Nat :=
  let s1 := { s with need_update := true }
  match s1.future with
  | some fid =>
    if futureIsDone s1.futures fid then
      ({ s1 with future := some s1.nextFutureId
                 futures := upsertA s1.nextFutureId FutureState.pending s1.futures
                 nextFutureId := s1.nextFutureId + 1 }, s1.nextFutureId)
    else (s1, fid)
  | none =>
    ({ s1 with future := some s1.nextFutureId
               futures := upsertA s1.nextFutureId FutureState.pending s1.futures
               nextFutureId := s1.nextFutureId + 1 }, s1.nextFutureId)

/-- `failed_update(exception)`: resolves the pending handle (if any) with
failure and clears it, then stamps `last_refresh_ms = now`. -/
def failed_update (s : ClusterState) (e : ClientError) (now : Int) : ClusterState :=
  let s1 :=
    match s.future with
    | some fid =>
      { s with futures := upsertA fid (FutureState.failed e) s.futures, future := none }
    | none => s
  { s1 with last_refresh_ms := now }

/-- The single-topic error short-circuit test of `update_metadata`: the
response has exactly one topic and its error code is non-zero. -/
def singleTopicError (md : MetadataResponse) : Option (Int × String) :=
  match md.topics with
  | [(ec, t, _)] => if ec ≠ 0 then some (ec, t) else none
  | _ => none

/-- The per-topic partition-to-leader map built by the inner loop of
`update_metadata` (`self._partitions[topic][partition] = leader`). -/
def buildPartitions (parts : List PartitionRecord) : List (Int × Int) :=
  parts.foldl (fun pm p => upsertA p.partition p.leader pm) []

/-- `update_metadata(metadata)`: the core merge. Returns the new state and
the set of listener handles invoked (empty on the short-circuit path; the
whole listener set, order unspecified, on the success path). -/
def update_metadata (s : ClusterState) (md : MetadataResponse) (now : Int) :
    ClusterState × Finset Nat :=
  match singleTopicError md with
  | some (ec, t) =>
    (failed_update s (ClientError.forTopic (for_code ec) t) now, ∅)
  | none =>
    let newBrokers := md.brokers.foldl
      (fun m e => upsertA e.1 (BrokerMetadata.mk e.1 e.2.1 e.2.2) m) s.brokers
    let newPartitions := md.topics.foldl
      (fun m e =>
        if for_code e.1 = ErrorKind.noError then upsertA e.2.1 (buildPartitions e.2.2) m
        else m) []
    let futures1 :=
      match s.future with
      | some fid => upsertA fid FutureState.succeeded s.futures
      | none => s.futures
    ({ s with brokers := newBrokers
              partitions := newPartitions
              futures := futures1
              future := none
              need_update := false
              version := s.version + 1
              last_refresh_ms := now
              last_successful_refresh_ms := now }, s.listeners)

/-- `add_listener(listener)` (Python `set.add`). -/
def add_listener (s : ClusterState) (l : Nat) : ClusterState :=
  { s with listeners := insert l s.listeners }

/-- `remove_listener(listener)` (Python `set.remove`): `none` signals the
`KeyError` raised for a callback not in the set. -/
def remove_listener (s : ClusterState) (l : Nat) : Option ClusterState :=
  if l ∈ s.listeners then some { s with listeners := s.listeners.erase l } else none

/-- One driver-visible operation on the cache. -/
inductive Op where
  | updateMeta (md : MetadataResponse) (now : Int)
  | failUpd (e : ClientError) (now : Int)
  | reqUpd
  | addL (l : Nat)
  | removeL (l : Nat)

/-- Apply one operation. A `remove_listener` that raises mutates nothing, so
its failing case leaves the state unchanged. -/
def applyOp (s : ClusterState) : Op → ClusterState
  | Op.updateMeta md now => (update_metadata s md now).1
  | Op.failUpd e now => failed_update s e now
  | Op.reqUpd => (request_update s).1
  | Op.addL l => add_listener s l
  | Op.removeL l => (remove_listener s l).getD s

/-- Run a sequence of operations. -/
def run (s : ClusterState) (ops : List Op) : ClusterState :=
  ops.foldl applyOp s

/-- Whether an operation is a successful (non-short-circuited)
`update_metadata` call. -/
def isSuccessfulUpdate : Op → Bool
  | Op.updateMeta md _ => (singleTopicError md).isNone
  | _ => false

/-- A response is well formed when every `NoError` topic entry lists at
least one partition record. -/
def wfResponse (md : MetadataResponse) : Bool :=
  md.topics.all (fun e => if e.1 = 0 then !e.2.2.isEmpty else true)

/-- A sequence of operations is well formed when every ingested response is. -/
def wfOps (ops : List Op) : Bool :=
  ops.all (fun op =>
    match op with
    | Op.updateMeta md _ => wfResponse md
    | _ => true)

/-- Well-formedness of the handle table: every handle ever created has an id
below the next fresh id. Holds in every reachable state. -/
def wfFut (s : ClusterState) : Bool :=
  s.futures.all (fun kv => decide (kv.1 < s.nextFutureId))

/-- No topic is stored with an empty per-topic partition map. -/
def noEmptyTopicMaps (s : ClusterState) : Prop :=
  ∀ e ∈ s.partitions, e.2 ≠ ([] : List (Int × Int))

/-- Concrete response: two brokers, a healthy topic `orders` with partitions
0 and 1, and an unknown topic `ghost`. -/
def mdOrders : MetadataResponse :=
  { brokers := [(1, "h1", 9092), (2, "h2", 9092)]
    topics := [(0, "orders", [⟨0, 0, 1, 0, 0⟩, ⟨0, 1, 2, 0, 0⟩]), (3, "ghost", [])] }

/-- Concrete response with exactly one topic carrying a non-zero error. -/
def mdSolo : MetadataResponse :=
  { brokers := [], topics := [(5, "solo", [])] }

/-- Concrete state holding a pending update handle. -/
def sPend : ClusterState := (request_update initCluster).1

/-- Concrete response carrying only broker 1. -/
def mdB1 : MetadataResponse := { brokers := [(1, "h1", 9092)], topics := [] }

/-- Concrete response carrying only broker 2. -/
def mdB2 : MetadataResponse := { brokers := [(2, "h2", 9092)], topics := [] }

/-- Concrete state that knows broker 1. -/
def sB1 : ClusterState := (update_metadata initCluster mdB1 0).1

/-- Concrete response with one broker and an empty topics list. -/
def mdEmptyTopics : MetadataResponse := { brokers := [(3, "h3", 9092)], topics := [] }

/-- Concrete state with known brokers, a known topic and a pending handle. -/
def sReady : ClusterState := (request_update (update_metadata sPend mdOrders 50).1).1

/-! ### Association-list lemmas -/

theorem lookupA_upsertA {α β : Type} [DecidableEq α] (k kk : α) (v : β)
    (m : List (α × β)) :
    lookupA k (upsertA kk v m) = if kk = k then some v else lookupA k m := by
  induction m with
  | nil => simp [lookupA, upsertA]
  | cons hd tl ih =>
    obtain ⟨k1, v1⟩ := hd
    by_cases h1 : k1 = kk
    · subst h1
      simp only [upsertA, if_pos rfl, lookupA]
      by_cases h2 : k1 = k <;> simp [h2]
    · simp only [upsertA, if_neg h1, lookupA]
      by_cases h2 : k1 = k
      · subst h2
        have h3 : ¬ kk = k1 := fun h => h1 h.symm
        simp [lookupA, h3]
      · simp [lookupA, h2, ih]

theorem mem_of_lookupA_eq_some {α β : Type} [DecidableEq α] {k : α} {v : β}
    {m : List (α × β)} (h : lookupA k m = some v) : (k, v) ∈ m := by
  induction m with
  | nil => simp [lookupA] at h
  | cons hd tl ih =>
    obtain ⟨k1, v1⟩ := hd
    by_cases h1 : k1 = k
    · subst h1
      simp [lookupA] at h
      simp [h]
    · simp only [lookupA, if_neg h1] at h
      exact List.mem_cons_of_mem _ (ih h)

theorem lookupA_eq_none_of_not_mem_keysF {α β : Type} [DecidableEq α] {k : α}
    {m : List (α × β)} (h : k ∉ keysF m) : lookupA k m = none := by
  cases hl : lookupA k m with
  | none => rfl
  | some v =>
    exact absurd (by
      have := mem_of_lookupA_eq_some hl
      simp only [keysF, List.mem_toFinset, List.mem_map]
      exact ⟨(k, v), this, rfl⟩) h

theorem lastMatch_mem_and_sat {α : Type} {p : α → Bool} {l : List α} {y : α}
    (h : lastMatch p l = some y) : y ∈ l ∧ p y := by
  induction l with
  | nil => simp [lastMatch] at h
  | cons hd tl ih =>
    cases h1 : lastMatch p tl with
    | some z =>
      have h2 : lastMatch p (hd :: tl) = some z := by simp [lastMatch, h1]
      rw [h2] at h
      cases h
      obtain ⟨hm, hs⟩ := ih h1
      exact ⟨List.mem_cons_of_mem _ hm, hs⟩
    | none =>
      have h2 : lastMatch p (hd :: tl) = if p hd then some hd else none := by
        simp [lastMatch, h1]
      rw [h2] at h
      by_cases hp : p hd
      · rw [if_pos hp] at h
        cases h
        exact ⟨List.mem_cons_self _ _, hp⟩
      · rw [if_neg hp] at h
        cases h

theorem lastMatch_eq_none_iff {α : Type} (p : α → Bool) (l : List α) :
    lastMatch p l = none ↔ ∀ x ∈ l, ¬ p x := by
  induction l with
  | nil => simp [lastMatch]
  | cons hd tl ih =>
    cases h : lastMatch p tl with
    | some y =>
      obtain ⟨hm, hs⟩ := lastMatch_mem_and_sat h
      simp only [lastMatch, h]
      constructor
      · intro hc
        exact absurd hc (by simp)
      · intro hall
        exact absurd hs (by simp [hall y (List.mem_cons_of_mem _ hm)])
    | none =>
      have htl := ih.mp h
      simp only [lastMatch, h]
      by_cases hp : p hd
      · rw [if_pos hp]
        constructor
        · intro hc
          exact absurd hc (by simp)
        · intro hall
          exact absurd hp (by simp [hall hd (List.mem_cons_self _ _)])
      · rw [if_neg hp]
        constructor
        · intro _ x hx
          rcases List.mem_cons.mp hx with h1 | h1
          · subst h1; exact hp
          · exact htl x h1
        · intro _; rfl

theorem lastMatch_eq_of_unique {α : Type} {p : α → Bool} {l : List α} {y : α}
    (hy : y ∈ l) (hpy : p y) (huniq : ∀ z ∈ l, p z → z = y) :
    lastMatch p l = some y := by
  induction l with
  | nil => simp at hy
  | cons hd tl ih =>
    cases h1 : lastMatch p tl with
    | some z =>
      obtain ⟨hm, hs⟩ := lastMatch_mem_and_sat h1
      have hz : z = y := huniq z (List.mem_cons_of_mem _ hm) hs
      simp [lastMatch, h1, hz]
    | none =>
      rcases List.mem_cons.mp hy with h2 | h2
      · subst h2
        simp [lastMatch, h1, hpy]
      · exact absurd ((lastMatch_eq_none_iff p tl).mp h1 y h2) (by simp [hpy])

theorem lookupA_foldl_upsertA_cond {α β γ : Type} [DecidableEq α]
    (c : γ → Bool) (key : γ → α) (val : γ → β) (k : α) (l : List γ) :
    ∀ m0 : List (α × β),
    lookupA k (l.foldl (fun m e => if c e then upsertA (key e) (val e) m else m) m0) =
      match lastMatch (fun e => c e && decide (key e = k)) l with
      | some y => some (val y)
      | none => lookupA k m0 := by
  induction l with
  | nil => intro m0; simp [lastMatch]
  | cons hd tl ih =>
    intro m0
    simp only [List.foldl_cons]
    rw [ih]
    cases h1 : lastMatch (fun e => c e && decide (key e = k)) tl with
    | some y => simp [lastMatch, h1]
    | none =>
      simp only [lastMatch, h1]
      by_cases hc : c hd
      · rw [if_pos hc, lookupA_upsertA]
        by_cases hk : key hd = k
        · simp [hc, hk]
        · simp [hc, hk]
      · simp [hc]

theorem keysF_upsertA {α β : Type} [DecidableEq α] (k : α) (v : β)
    (m : List (α × β)) : keysF (upsertA k v m) = insert k (keysF m) := by
  induction m with
  | nil => simp [keysF, upsertA]
  | cons hd tl ih =>
    obtain ⟨k1, v1⟩ := hd
    by_cases h1 : k1 = k
    · subst h1
      simp [upsertA, keysF]
    · simp only [keysF] at ih
      simp only [upsertA, if_neg h1, keysF, List.map_cons, List.toFinset_cons]
      rw [ih]
      exact Finset.Insert.comm k1 k _

theorem keysF_foldl_upsertA {α β γ : Type} [DecidableEq α]
    (kf : γ → α) (vf : γ → β) (l : List γ) :
    ∀ m0 : List (α × β),
    keysF (l.foldl (fun pm p => upsertA (kf p) (vf p) pm) m0) =
      keysF m0 ∪ (l.map kf).toFinset := by
  induction l with
  | nil => intro m0; simp
  | cons hd tl ih =>
    intro m0
    simp only [List.foldl_cons, List.map_cons, List.toFinset_cons]
    rw [ih, keysF_upsertA]
    ext x
    simp only [Finset.mem_union, Finset.mem_insert, List.mem_toFinset]
    tauto

theorem upsertA_ne_nil {α β : Type} [DecidableEq α] (k : α) (v : β)
    (m : List (α × β)) : upsertA k v m ≠ [] := by
  cases m with
  | nil => simp [upsertA]
  | cons hd tl =>
    obtain ⟨k1, v1⟩ := hd
    simp only [upsertA]
    by_cases h : k1 = k <;> simp [h]

theorem foldl_upsertA_ne_nil {α β γ : Type} [DecidableEq α]
    (kf : γ → α) (vf : γ → β) (l : List γ) :
    ∀ m0 : List (α × β), m0 ≠ [] →
    l.foldl (fun pm p => upsertA (kf p) (vf p) pm) m0 ≠ [] := by
  induction l with
  | nil => intro m0 h; simpa using h
  | cons hd tl ih =>
    intro m0 _
    simp only [List.foldl_cons]
    exact ih _ (upsertA_ne_nil _ _ _)

theorem buildPartitions_ne_nil {parts : List PartitionRecord}
    (h : parts ≠ []) : buildPartitions parts ≠ [] := by
  cases parts with
  | nil => exact absurd rfl h
  | cons hd tl =>
    simp only [buildPartitions, List.foldl_cons]
    exact foldl_upsertA_ne_nil _ _ tl _ (upsertA_ne_nil _ _ _)

theorem keysF_buildPartitions (parts : List PartitionRecord) :
    keysF (buildPartitions parts) = (parts.map PartitionRecord.partition).toFinset := by
  simp only [buildPartitions]
  rw [keysF_foldl_upsertA PartitionRecord.partition PartitionRecord.leader parts []]
  simp [keysF]

theorem for_code_eq_noError_iff (c : Int) : for_code c = ErrorKind.noError ↔ c = 0 := by
  unfold for_code
  split_ifs with h0 h3 h5 h17 h29 <;> simp_all

theorem mem_upsertA {α β : Type} [DecidableEq α] {x : α × β} {k : α} {v : β}
    {m : List (α × β)} (h : x ∈ upsertA k v m) : x = (k, v) ∨ x ∈ m := by
  induction m with
  | nil => simpa [upsertA] using h
  | cons hd tl ih =>
    obtain ⟨k1, v1⟩ := hd
    by_cases h1 : k1 = k
    · subst h1
      rw [upsertA, if_pos rfl] at h
      rcases List.mem_cons.mp h with h2 | h2
      · exact Or.inl h2
      · exact Or.inr (List.mem_cons_of_mem _ h2)
    · rw [upsertA, if_neg h1] at h
      rcases List.mem_cons.mp h with h2 | h2
      · exact Or.inr (by simp [h2])
      · rcases ih h2 with h3 | h3
        · exact Or.inl h3
        · exact Or.inr (List.mem_cons_of_mem _ h3)

/-! ### Fold-lookup lemmas specialised to the two merge loops -/

theorem lookupA_brokers_fold (entries : List (Int × String × Int)) (nid : Int) :
    ∀ m0 : List (Int × BrokerMetadata),
    lookupA nid
      (entries.foldl (fun m e => upsertA e.1 (BrokerMetadata.mk e.1 e.2.1 e.2.2) m) m0) =
      match lastMatch (fun e => decide (e.1 = nid)) entries with
      | some e => some (BrokerMetadata.mk e.1 e.2.1 e.2.2)
      | none => lookupA nid m0 := by
  induction entries with
  | nil => intro m0; simp [lastMatch]
  | cons hd tl ih =>
    intro m0
    simp only [List.foldl_cons]
    rw [ih]
    cases h1 : lastMatch (fun e => decide (e.1 = nid)) tl with
    | some y => simp [lastMatch, h1]
    | none =>
      simp only [lastMatch, h1]
      rw [lookupA_upsertA]
      by_cases hk : hd.1 = nid
      · simp [hk]
      · simp [hk]

theorem lookupA_partitions_fold (topics : List (Int × String × List PartitionRecord))
    (t : String) :
    ∀ m0 : List (String × List (Int × Int)),
    lookupA t
      (topics.foldl
        (fun m e =>
          if for_code e.1 = ErrorKind.noError then upsertA e.2.1 (buildPartitions e.2.2) m
          else m) m0) =
      match lastMatch
          (fun e => decide (for_code e.1 = ErrorKind.noError) && decide (e.2.1 = t))
          topics with
      | some e => some (buildPartitions e.2.2)
      | none => lookupA t m0 := by
  induction topics with
  | nil => intro m0; simp [lastMatch]
  | cons hd tl ih =>
    intro m0
    simp only [List.foldl_cons]
    rw [ih]
    cases h1 : lastMatch
        (fun e => decide (for_code e.1 = ErrorKind.noError) && decide (e.2.1 = t)) tl with
    | some y => simp [lastMatch, h1]
    | none =>
      simp only [lastMatch, h1]
      by_cases hc : for_code hd.1 = ErrorKind.noError
      · rw [if_pos hc, lookupA_upsertA]
        by_cases hk : hd.2.1 = t
        · simp [hc, hk]
        · simp [hc, hk]
      · simp [hc]

theorem mem_partitions_fold {topics : List (Int × String × List PartitionRecord)}
    {x : String × List (Int × Int)} :
    ∀ {m0 : List (String × List (Int × Int))},
    x ∈ topics.foldl
        (fun m e =>
          if for_code e.1 = ErrorKind.noError then upsertA e.2.1 (buildPartitions e.2.2) m
          else m) m0 →
    (∃ e ∈ topics, for_code e.1 = ErrorKind.noError ∧ x = (e.2.1, buildPartitions e.2.2)) ∨
      x ∈ m0 := by
  induction topics with
  | nil =>
    intro m0 h
    exact Or.inr (by simpa using h)
  | cons hd tl ih =>
    intro m0 h
    simp only [List.foldl_cons] at h
    rcases ih h with hin | hm0
    · obtain ⟨e, he, hne, hx⟩ := hin
      exact Or.inl ⟨e, List.mem_cons_of_mem _ he, hne, hx⟩
    · by_cases hc : for_code hd.1 = ErrorKind.noError
      · rw [if_pos hc] at hm0
        rcases mem_upsertA hm0 with hx | hx
        · exact Or.inl ⟨hd, List.mem_cons_self _ _, hc, hx⟩
        · exact Or.inr hx
      · rw [if_neg hc] at hm0
        exact Or.inr hm0

/-! ### Frame lemmas for the operations -/

theorem failed_update_spec (s : ClusterState) (e : ClientError) (now : Int) :
    (failed_update s e now).brokers = s.brokers ∧
    (failed_update s e now).partitions = s.partitions ∧
    (failed_update s e now).groups = s.groups ∧
    (failed_update s e now).version = s.version ∧
    (failed_update s e now).last_successful_refresh_ms = s.last_successful_refresh_ms ∧
    (failed_update s e now).listeners = s.listeners ∧
    (failed_update s e now).need_update = s.need_update ∧
    (failed_update s e now).retry_backoff_ms = s.retry_backoff_ms ∧
    (failed_update s e now).metadata_max_age_ms = s.metadata_max_age_ms ∧
    (failed_update s e now).nextFutureId = s.nextFutureId ∧
    (failed_update s e now).last_refresh_ms = now ∧
    (failed_update s e now).future = none ∧
    (∀ fid, s.future = some fid →
      lookupA fid (failed_update s e now).futures = some (FutureState.failed e)) ∧
    (s.future = none → (failed_update s e now).futures = s.futures) := by
  cases hf : s.future with
  | none => simp [failed_update, hf]
  | some fid => simp [failed_update, hf, lookupA_upsertA]

theorem update_metadata_success_spec (s : ClusterState) (md : MetadataResponse)
    (now : Int) (hst : singleTopicError md = none) :
    (update_metadata s md now).1.brokers =
      md.brokers.foldl (fun m e => upsertA e.1 (BrokerMetadata.mk e.1 e.2.1 e.2.2) m)
        s.brokers ∧
    (update_metadata s md now).1.partitions =
      md.topics.foldl
        (fun m e =>
          if for_code e.1 = ErrorKind.noError then upsertA e.2.1 (buildPartitions e.2.2) m
          else m) [] ∧
    (update_metadata s md now).1.groups = s.groups ∧
    (update_metadata s md now).1.future = none ∧
    (update_metadata s md now).1.need_update = false ∧
    (update_metadata s md now).1.version = s.version + 1 ∧
    (update_metadata s md now).1.last_refresh_ms = now ∧
    (update_metadata s md now).1.last_successful_refresh_ms = now ∧
    (update_metadata s md now).1.listeners = s.listeners ∧
    (update_metadata s md now).1.retry_backoff_ms = s.retry_backoff_ms ∧
    (update_metadata s md now).1.metadata_max_age_ms = s.metadata_max_age_ms ∧
    (update_metadata s md now).1.nextFutureId = s.nextFutureId ∧
    (update_metadata s md now).2 = s.listeners ∧
    (∀ fid, s.future = some fid →
      lookupA fid (update_metadata s md now).1.futures = some FutureState.succeeded) ∧
    (s.future = none → (update_metadata s md now).1.futures = s.futures) := by
  cases hf : s.future with
  | none => simp [update_metadata, hst, hf]
  | some fid => simp [update_metadata, hst, hf, lookupA_upsertA]

theorem request_update_frame (s : ClusterState) :
    (request_update s).1.need_update = true ∧
    (request_update s).1.brokers = s.brokers ∧
    (request_update s).1.partitions = s.partitions ∧
    (request_update s).1.groups = s.groups ∧
    (request_update s).1.version = s.version ∧
    (request_update s).1.last_refresh_ms = s.last_refresh_ms ∧
    (request_update s).1.last_successful_refresh_ms = s.last_successful_refresh_ms ∧
    (request_update s).1.listeners = s.listeners ∧
    (request_update s).1.retry_backoff_ms = s.retry_backoff_ms ∧
    (request_update s).1.metadata_max_age_ms = s.metadata_max_age_ms := by
  cases hf : s.future with
  | none => simp [request_update, hf]
  | some fid =>
    by_cases hd : futureIsDone s.futures fid
    · simp [request_update, hf, hd]
    · simp [request_update, hf, hd]

theorem lookupA_of_not_done {futures : List (Nat × FutureState)} {fid : Nat}
    (h : futureIsDone futures fid = false) :
    lookupA fid futures = some FutureState.pending := by
  cases hl : lookupA fid futures with
  | none => simp [futureIsDone, hl] at h
  | some st => cases st <;> simp_all [futureIsDone, hl]

theorem request_update_keep {s : ClusterState} {fid : Nat}
    (hf : s.future = some fid) (hd : futureIsDone s.futures fid = false) :
    (request_update s).2 = fid ∧
    (request_update s).1 = { s with need_update := true } := by
  constructor <;> simp [request_update, hf, hd]

theorem request_update_fresh {s : ClusterState}
    (h : s.future = none ∨
      ∃ fid, s.future = some fid ∧ futureIsDone s.futures fid = true) :
    (request_update s).2 = s.nextFutureId ∧
    (request_update s).1 =
      { s with need_update := true
               future := some s.nextFutureId
               futures := upsertA s.nextFutureId FutureState.pending s.futures
               nextFutureId := s.nextFutureId + 1 } := by
  rcases h with hf | ⟨fid, hf, hd⟩
  · constructor <;> simp [request_update, hf]
  · constructor <;> simp [request_update, hf, hd]

theorem request_update_pending (s : ClusterState) :
    (request_update s).1.future = some (request_update s).2 ∧
    lookupA (request_update s).2 (request_update s).1.futures =
      some FutureState.pending := by
  cases hf : s.future with
  | none =>
    obtain ⟨h1, h2⟩ := request_update_fresh (Or.inl hf)
    rw [h1, h2]
    simp [lookupA_upsertA]
  | some fid =>
    by_cases hd : futureIsDone s.futures fid
    · obtain ⟨h1, h2⟩ := request_update_fresh (Or.inr ⟨fid, hf, hd⟩)
      rw [h1, h2]
      simp [lookupA_upsertA]
    · obtain ⟨h1, h2⟩ := request_update_keep hf (by simpa using hd)
      rw [h1, h2]
      exact ⟨hf, lookupA_of_not_done (by simpa using hd)⟩

theorem request_update_ret_lt {s : ClusterState} (hwf : wfFut s = true) :
    (request_update s).2 < (request_update s).1.nextFutureId := by
  cases hf : s.future with
  | none =>
    obtain ⟨h1, h2⟩ := request_update_fresh (Or.inl hf)
    rw [h1, h2]
    exact Nat.lt_succ_self _
  | some fid =>
    by_cases hd : futureIsDone s.futures fid
    · obtain ⟨h1, h2⟩ := request_update_fresh (Or.inr ⟨fid, hf, hd⟩)
      rw [h1, h2]
      exact Nat.lt_succ_self _
    · obtain ⟨h1, h2⟩ := request_update_keep hf (by simpa using hd)
      rw [h1, h2]
      have hl := @lookupA_of_not_done s.futures fid (by simpa using hd)
      have hmem := mem_of_lookupA_eq_some hl
      have := List.all_eq_true.mp hwf _ hmem
      simpa using this

theorem applyOp_version (s : ClusterState) (op : Op) :
    (applyOp s op).version = s.version + (if isSuccessfulUpdate op then 1 else 0) := by
  cases op with
  | updateMeta md now =>
    cases hst : singleTopicError md with
    | some v =>
      obtain ⟨ec, t⟩ := v
      have h := (failed_update_spec s (ClientError.forTopic (for_code ec) t) now).2.2.2.1
      simp [applyOp, update_metadata, hst, isSuccessfulUpdate, h]
    | none =>
      have h := (update_metadata_success_spec s md now hst).2.2.2.2.2.1
      simp [applyOp, isSuccessfulUpdate, hst, h]
  | failUpd e now =>
    have h := (failed_update_spec s e now).2.2.2.1
    simp [applyOp, isSuccessfulUpdate, h]
  | reqUpd =>
    have h := (request_update_frame s).2.2.2.2.1
    simp [applyOp, isSuccessfulUpdate, h]
  | addL l => simp [applyOp, isSuccessfulUpdate, add_listener]
  | removeL l =>
    by_cases h : l ∈ s.listeners <;> simp [applyOp, isSuccessfulUpdate, remove_listener, h]

/-! ### Claim theorems -/

/-- C4: for every cache state and current time, `ttl()` equals
`max(age_deadline, retry_deadline, 0)` where the age deadline is 0 when the
need-update flag is set and `last_successful_refresh_ms + metadata_max_age_ms
- now` otherwise, and the retry deadline is
`last_refresh_ms + retry_backoff_ms - now`; the result is never negative, and
after `request_update()` it returns 0 exactly when at least
`retry_backoff_ms` milliseconds have elapsed since `last_refresh_ms`. -/
theorem C4_ttl_formula (s : ClusterState) (now : Int) :
    ttl s now =
      max (max (if s.need_update then 0
                else s.last_successful_refresh_ms + s.metadata_max_age_ms - now)
          (s.last_refresh_ms + s.retry_backoff_ms - now)) 0 ∧
    0 ≤ ttl s now ∧
    (ttl (request_update s).1 now = 0 ↔
      s.last_refresh_ms + s.retry_backoff_ms ≤ now) := by
  refine ⟨rfl, ?_, ?_⟩
  · simp only [ttl]
    split_ifs <;> omega
  · obtain ⟨hnu, _, _, _, _, hlr, hls, _, hrb, hma⟩ := request_update_frame s
    have h0 : ttl (request_update s).1 now =
        max (max 0 (s.last_refresh_ms + s.retry_backoff_ms - now)) 0 := by
      simp [ttl, hnu, hlr, hrb]
    rw [h0]
    omega

/-- C8: `failed_update(error)` resolves the pending handle (if any) with that
failure and clears it, leaves the handle table alone when no handle exists,
stamps `last_refresh_ms` to now, and changes nothing else: brokers,
partitions, groups, version, `last_successful_refresh_ms`, the listener set
and the need-update flag are all unchanged. -/
theorem C8_failed_update_frame (s : ClusterState) (e : ClientError) (now : Int) :
    (failed_update s e now).brokers = s.brokers ∧
    (failed_update s e now).partitions = s.partitions ∧
    (failed_update s e now).groups = s.groups ∧
    (failed_update s e now).version = s.version ∧
    (failed_update s e now).last_successful_refresh_ms = s.last_successful_refresh_ms ∧
    (failed_update s e now).listeners = s.listeners ∧
    (failed_update s e now).need_update = s.need_update ∧
    (failed_update s e now).last_refresh_ms = now ∧
    (failed_update s e now).future = none ∧
    (∀ fid, s.future = some fid →
      lookupA fid (failed_update s e now).futures = some (FutureState.failed e)) ∧
    (s.future = none → (failed_update s e now).futures = s.futures) := by
  obtain ⟨h1, h2, h3, h4, h5, h6, h7, _, _, _, h11, h12, h13, h14⟩ :=
    failed_update_spec s e now
  exact ⟨h1, h2, h3, h4, h5, h6, h7, h11, h12, h13, h14⟩

/-- C2: a response with exactly one topic whose error code is non-zero makes
`update_metadata` short-circuit: brokers, partitions, version, the
need-update flag and `last_successful_refresh_ms` are unchanged, the pending
handle (if any) is resolved with the mapped error kind instantiated with the
topic name and then cleared, `last_refresh_ms` is stamped to now, and no
listener is invoked. -/
theorem C2_single_topic_error (s : ClusterState) (md : MetadataResponse)
    (ec : Int) (t : String) (ps : List PartitionRecord) (now : Int)
    (hmd : md.topics = [(ec, t, ps)]) (hec : ec ≠ 0) :
    (update_metadata s md now).1.brokers = s.brokers ∧
    (update_metadata s md now).1.partitions = s.partitions ∧
    (update_metadata s md now).1.version = s.version ∧
    (update_metadata s md now).1.need_update = s.need_update ∧
    (update_metadata s md now).1.last_successful_refresh_ms =
      s.last_successful_refresh_ms ∧
    (update_metadata s md now).1.last_refresh_ms = now ∧
    (update_metadata s md now).1.future = none ∧
    (∀ fid, s.future = some fid →
      lookupA fid (update_metadata s md now).1.futures =
        some (FutureState.failed (ClientError.forTopic (for_code ec) t))) ∧
    (update_metadata s md now).2 = ∅ := by
  have hst : singleTopicError md = some (ec, t) := by
    simp [singleTopicError, hmd, hec]
  have hupd : update_metadata s md now =
      (failed_update s (ClientError.forTopic (for_code ec) t) now, ∅) := by
    simp [update_metadata, hst]
  rw [hupd]
  obtain ⟨h1, h2, _, h4, h5, _, h7, _, _, _, h11, h12, h13, _⟩ :=
    failed_update_spec s (ClientError.forTopic (for_code ec) t) now
  exact ⟨h1, h2, h4, h7, h5, h11, h12, h13, rfl⟩

/-- Witness for C2: the short-circuit exercised at a concrete state with a
pending handle and the concrete response `mdSolo`. -/
theorem C2_single_topic_error_witness :
    (mdSolo.topics = [(5, "solo", [])] ∧ (5 : Int) ≠ 0) ∧
    ((update_metadata sPend mdSolo 7).1.brokers = sPend.brokers ∧
     (update_metadata sPend mdSolo 7).1.partitions = sPend.partitions ∧
     (update_metadata sPend mdSolo 7).1.version = sPend.version ∧
     (update_metadata sPend mdSolo 7).1.need_update = sPend.need_update ∧
     (update_metadata sPend mdSolo 7).1.last_successful_refresh_ms =
       sPend.last_successful_refresh_ms ∧
     (update_metadata sPend mdSolo 7).1.last_refresh_ms = 7 ∧
     (update_metadata sPend mdSolo 7).1.future = none ∧
     (∀ fid, sPend.future = some fid →
       lookupA fid (update_metadata sPend mdSolo 7).1.futures =
         some (FutureState.failed (ClientError.forTopic (for_code 5) "solo"))) ∧
     (update_metadata sPend mdSolo 7).2 = ∅) :=
  ⟨⟨rfl, by decide⟩, C2_single_topic_error sPend mdSolo 5 "solo" [] 7 rfl (by decide)⟩

/-- C5: over any sequence of operations, the version counter ends at its
initial value plus the number of successful (non-short-circuited)
`update_metadata` calls; failed updates, short-circuited updates and all
other operations leave it unchanged. -/
theorem C5_version_counts (s : ClusterState) (ops : List Op) :
    (run s ops).version = s.version + ops.countP isSuccessfulUpdate := by
  induction ops generalizing s with
  | nil => simp [run]
  | cons op ops ih =>
    have h1 : run s (op :: ops) = run (applyOp s op) ops := rfl
    rw [h1, ih, applyOp_version, List.countP_cons]
    by_cases h : isSuccessfulUpdate op
    · simp only [h, if_true]
      omega
    · simp only [h, if_false]
      omega

/-- C10: a response with an empty topics list is not short-circuited: it is
processed as a fully successful update that empties the whole partition map,
leaves previously known brokers the response does not mention in place,
resolves the pending handle (if any) with success and clears it, clears the
need-update flag, increments the version, stamps both refresh timestamps to
now, and notifies every registered listener. -/
theorem C10_empty_topics_success (s : ClusterState) (md : MetadataResponse)
    (now : Int) (htopics : md.topics = []) :
    (∀ t, partitions_for_topic (update_metadata s md now).1 t = none) ∧
    (∀ nid, (∀ b ∈ md.brokers, b.1 ≠ nid) →
      broker_metadata (update_metadata s md now).1 nid = broker_metadata s nid) ∧
    (∀ fid, s.future = some fid →
      lookupA fid (update_metadata s md now).1.futures = some FutureState.succeeded) ∧
    (update_metadata s md now).1.future = none ∧
    (update_metadata s md now).1.need_update = false ∧
    (update_metadata s md now).1.version = s.version + 1 ∧
    (update_metadata s md now).1.last_refresh_ms = now ∧
    (update_metadata s md now).1.last_successful_refresh_ms = now ∧
    (update_metadata s md now).2 = s.listeners := by
  have hst : singleTopicError md = none := by simp [singleTopicError, htopics]
  obtain ⟨hb, hp, _, hfut, hnu, hv, hlr, hls, _, _, _, _, hsnd, hres, _⟩ :=
    update_metadata_success_spec s md now hst
  refine ⟨?_, ?_, hres, hfut, hnu, hv, hlr, hls, hsnd⟩
  · intro t
    simp [partitions_for_topic, hp, htopics, lookupA]
  · intro nid hnone
    have hlm : lastMatch (fun e => decide (e.1 = nid)) md.brokers = none :=
      (lastMatch_eq_none_iff _ _).mpr (by
        intro b hbmem
        simpa using hnone b hbmem)
    simp only [broker_metadata, hb]
    rw [lookupA_brokers_fold]
    simp [hlm]

/-- Witness for C10: the empty-topics update exercised at a concrete state
with brokers, a topic, a listener-free listener set and a pending handle. -/
theorem C10_empty_topics_success_witness :
    mdEmptyTopics.topics = [] ∧
    ((∀ t, partitions_for_topic (update_metadata sReady mdEmptyTopics 99).1 t = none) ∧
     (∀ nid, (∀ b ∈ mdEmptyTopics.brokers, b.1 ≠ nid) →
       broker_metadata (update_metadata sReady mdEmptyTopics 99).1 nid =
         broker_metadata sReady nid) ∧
     (∀ fid, sReady.future = some fid →
       lookupA fid (update_metadata sReady mdEmptyTopics 99).1.futures =
         some FutureState.succeeded) ∧
     (update_metadata sReady mdEmptyTopics 99).1.future = none ∧
     (update_metadata sReady mdEmptyTopics 99).1.need_update = false ∧
     (update_metadata sReady mdEmptyTopics 99).1.version = sReady.version + 1 ∧
     (update_metadata sReady mdEmptyTopics 99).1.last_refresh_ms = 99 ∧
     (update_metadata sReady mdEmptyTopics 99).1.last_successful_refresh_ms = 99 ∧
     (update_metadata sReady mdEmptyTopics 99).2 = sReady.listeners) :=
  ⟨rfl, C10_empty_topics_success sReady mdEmptyTopics 99 rfl⟩

/-- C3 counterexample: brokers are merged, not replaced wholesale — after a
second successful update whose response omits broker 1, broker 1 is still
returned by `broker_metadata` and still belongs to `brokers()`. -/
theorem C3_counterexample :
    broker_metadata (update_metadata sB1 mdB2 1).1 1 = some ⟨1, "h1", 9092⟩ ∧
    BrokerMetadata.mk 1 "h1" 9092 ∈
      ClusterState.brokersSet (update_metadata sB1 mdB2 1).1 := by
  constructor
  · decide
  · decide

/-- C3 (amended): every successful (non-short-circuited) `update_metadata`
call merges the response broker entries into the existing broker map keyed
by node id, the last response entry winning per duplicated node id; a broker
known before the call but absent from the response is still returned
unchanged. -/
theorem C3_brokers_merge (s : ClusterState) (md : MetadataResponse) (now : Int)
    (hst : singleTopicError md = none) (nid : Int) :
    broker_metadata (update_metadata s md now).1 nid =
      match lastMatch (fun e => decide (e.1 = nid)) md.brokers with
      | some e => some (BrokerMetadata.mk e.1 e.2.1 e.2.2)
      | none => broker_metadata s nid := by
  obtain ⟨hb, _⟩ := update_metadata_success_spec s md now hst
  simp only [broker_metadata, hb]
  rw [lookupA_brokers_fold]

/-- Witness for C3 (amended): broker 1 survives a second update that only
mentions broker 2. -/
theorem C3_brokers_merge_witness :
    singleTopicError mdB2 = none ∧
    broker_metadata (update_metadata sB1 mdB2 1).1 1 =
      match lastMatch (fun e => decide (e.1 = 1)) mdB2.brokers with
      | some e => some (BrokerMetadata.mk e.1 e.2.1 e.2.2)
      | none => broker_metadata sB1 1 :=
  ⟨by decide, C3_brokers_merge sB1 mdB2 1 (by decide) 1⟩

/-- C1 counterexample: when a response lists the same `NoError` topic twice,
the stored partition set is that of the last entry rather than all indices
listed in the response — the response below lists partition indices 0 and 1
for topic `t`, yet only index 1 is found afterwards. -/
theorem C1_counterexample :
    partitions_for_topic
      (update_metadata initCluster
        ⟨[], [(0, "t", [⟨0, 0, 1, 0, 0⟩]), (0, "t", [⟨0, 1, 2, 0, 0⟩])]⟩ 0).1 "t" =
      some {1} ∧
    partitions_for_topic
      (update_metadata initCluster
        ⟨[], [(0, "t", [⟨0, 0, 1, 0, 0⟩]), (0, "t", [⟨0, 1, 2, 0, 0⟩])]⟩ 0).1 "t" ≠
      some ({0, 1} : Finset Int) := by
  constructor
  · decide
  · decide

/-- C1 (amended): for every non-short-circuited `update_metadata` call whose
response lists each topic name at most once, the partition map is rebuilt
from scratch: afterwards a topic is found exactly when the response lists it
with an error code mapping to `NoError`, and each such topic maps to exactly
the set of partition indices listed for it in the response; nothing from any
earlier update survives. -/
theorem C1_partition_rebuild (s : ClusterState) (md : MetadataResponse) (now : Int)
    (hst : singleTopicError md = none)
    (hnd : (md.topics.map (fun e => e.2.1)).Nodup) :
    (∀ t, (partitions_for_topic (update_metadata s md now).1 t).isSome ↔
      ∃ e ∈ md.topics, e.2.1 = t ∧ for_code e.1 = ErrorKind.noError) ∧
    (∀ e ∈ md.topics, for_code e.1 = ErrorKind.noError →
      partitions_for_topic (update_metadata s md now).1 e.2.1 =
        some (e.2.2.map PartitionRecord.partition).toFinset) := by
  obtain ⟨_, hp, _⟩ := update_metadata_success_spec s md now hst
  constructor
  · intro t
    simp only [partitions_for_topic, hp]
    rw [lookupA_partitions_fold]
    cases hlm : lastMatch
        (fun e => decide (for_code e.1 = ErrorKind.noError) && decide (e.2.1 = t))
        md.topics with
    | some y =>
      obtain ⟨hm, hs⟩ := lastMatch_mem_and_sat hlm
      simp only [Bool.and_eq_true, decide_eq_true_eq] at hs
      simp only [Option.map_some', Option.isSome_some, true_iff]
      exact ⟨y, hm, hs.2, hs.1⟩
    | none =>
      have hall := (lastMatch_eq_none_iff _ _).mp hlm
      simp only [lookupA, Option.map_none', Option.isSome_none, Bool.false_eq_true,
        false_iff]
      rintro ⟨e, he, ht, hne⟩
      exact absurd (hall e he) (by simp [hne, ht])
  · intro e he hne
    simp only [partitions_for_topic, hp]
    rw [lookupA_partitions_fold]
    have hlm : lastMatch
        (fun x => decide (for_code x.1 = ErrorKind.noError) && decide (x.2.1 = e.2.1))
        md.topics = some e := by
      apply lastMatch_eq_of_unique he (by simp [hne])
      intro z hz hpz
      simp only [Bool.and_eq_true, decide_eq_true_eq] at hpz
      exact List.inj_on_of_nodup_map hnd hz he hpz.2
    simp [hlm, keysF_buildPartitions]

/-- C6: `request_update()` sets the need-update flag and returns the pending
handle, creating a fresh unresolved one exactly when no handle exists or the
existing one is already resolved; two calls with no resolution in between
return the identical handle, and a call made after the handle is resolved
(by `failed_update` or by a successful `update_metadata`) returns a new,
distinct handle. -/
theorem C6_request_update_handle (s : ClusterState) (hwf : wfFut s = true) :
    (request_update s).1.need_update = true ∧
    (∀ fid, s.future = some fid → futureIsDone s.futures fid = false →
      (request_update s).2 = fid ∧ (request_update s).1.futures = s.futures) ∧
    ((s.future = none ∨
        (∃ fid, s.future = some fid ∧ futureIsDone s.futures fid = true)) →
      (request_update s).2 = s.nextFutureId ∧
      lookupA (request_update s).2 (request_update s).1.futures =
        some FutureState.pending) ∧
    (request_update (request_update s).1).2 = (request_update s).2 ∧
    (∀ e now,
      (request_update (failed_update (request_update s).1 e now)).2 ≠
        (request_update s).2) ∧
    (∀ md now, singleTopicError md = none →
      (request_update (update_metadata (request_update s).1 md now).1).2 ≠
        (request_update s).2) := by
  obtain ⟨hfut1, hpend1⟩ := request_update_pending s
  have hlt : (request_update s).2 < (request_update s).1.nextFutureId :=
    request_update_ret_lt hwf
  refine ⟨(request_update_frame s).1, ?_, ?_, ?_, ?_, ?_⟩
  · intro fid hf hd
    obtain ⟨h1, h2⟩ := request_update_keep hf hd
    exact ⟨h1, by rw [h2]⟩
  · intro h
    obtain ⟨h1, h2⟩ := request_update_fresh h
    refine ⟨h1, ?_⟩
    rw [h1, h2]
    simp [lookupA_upsertA]
  · have hd1 : futureIsDone (request_update s).1.futures (request_update s).2 =
        false := by
      simp [futureIsDone, hpend1]
    exact (request_update_keep hfut1 hd1).1
  · intro e now
    have hff := (failed_update_spec (request_update s).1 e now).2.2.2.2.2.2.2.2.2.2.2.1
    have hfn := (failed_update_spec (request_update s).1 e now).2.2.2.2.2.2.2.2.2.1
    have h2 := (@request_update_fresh (failed_update (request_update s).1 e now)
      (Or.inl hff)).1
    rw [h2, hfn]
    omega
  · intro md now hst
    have hff := (update_metadata_success_spec (request_update s).1 md now hst).2.2.2.1
    have hfn :=
      (update_metadata_success_spec (request_update s).1 md now hst).2.2.2.2.2.2.2.2.2.2.2.1
    have h2 := (@request_update_fresh
      (update_metadata (request_update s).1 md now).1 (Or.inl hff)).1
    rw [h2, hfn]
    omega

/-- Witness for C6: the handle-sharing protocol exercised at the freshly
constructed cache. -/
theorem C6_request_update_handle_witness :
    wfFut initCluster = true ∧
    ((request_update initCluster).1.need_update = true ∧
     (∀ fid, initCluster.future = some fid →
       futureIsDone initCluster.futures fid = false →
       (request_update initCluster).2 = fid ∧
       (request_update initCluster).1.futures = initCluster.futures) ∧
     ((initCluster.future = none ∨
         (∃ fid, initCluster.future = some fid ∧
           futureIsDone initCluster.futures fid = true)) →
       (request_update initCluster).2 = initCluster.nextFutureId ∧
       lookupA (request_update initCluster).2 (request_update initCluster).1.futures =
         some FutureState.pending) ∧
     (request_update (request_update initCluster).1).2 =
       (request_update initCluster).2 ∧
     (∀ e now,
       (request_update (failed_update (request_update initCluster).1 e now)).2 ≠
         (request_update initCluster).2) ∧
     (∀ md now, singleTopicError md = none →
       (request_update (update_metadata (request_update initCluster).1 md now).1).2 ≠
         (request_update initCluster).2)) :=
  ⟨by decide, C6_request_update_handle initCluster (by decide)⟩

/-- A single operation preserves the absence of empty per-topic partition
maps, provided any ingested response is well formed. -/
theorem applyOp_noEmpty {s : ClusterState} (hs : noEmptyTopicMaps s) (op : Op)
    (hop : (match op with | Op.updateMeta md _ => wfResponse md | _ => true) = true) :
    noEmptyTopicMaps (applyOp s op) := by
  cases op with
  | updateMeta md now =>
    cases hst : singleTopicError md with
    | some v =>
      obtain ⟨ec, t⟩ := v
      have hfr := (failed_update_spec s (ClientError.forTopic (for_code ec) t) now).2.1
      intro e he
      apply hs
      have hq : applyOp s (Op.updateMeta md now) =
          failed_update s (ClientError.forTopic (for_code ec) t) now := by
        simp [applyOp, update_metadata, hst]
      rw [hq, hfr] at he
      exact he
    | none =>
      obtain ⟨_, hp, _⟩ := update_metadata_success_spec s md now hst
      intro e he
      simp only [applyOp] at he
      rw [hp] at he
      rcases mem_partitions_fold he with ⟨e2, he2, hne, hx⟩ | hnil
      · have hec0 : e2.1 = 0 := (for_code_eq_noError_iff _).mp hne
        have hw : wfResponse md = true := by simpa using hop
        have hall := List.all_eq_true.mp hw e2 he2
        rw [if_pos hec0] at hall
        have hparts : e2.2.2 ≠ [] := by
          intro hcon
          rw [hcon] at hall
          simp at hall
        rw [hx]
        exact buildPartitions_ne_nil hparts
      · simp at hnil
  | failUpd e now =>
    have hfr := (failed_update_spec s e now).2.1
    intro x hx
    apply hs
    simp only [applyOp] at hx
    rw [hfr] at hx
    exact hx
  | reqUpd =>
    have hfr := (request_update_frame s).2.2.1
    intro x hx
    apply hs
    simp only [applyOp] at hx
    rw [hfr] at hx
    exact hx
  | addL l =>
    intro x hx
    apply hs
    simpa [applyOp, add_listener] using hx
  | removeL l =>
    intro x hx
    apply hs
    by_cases h : l ∈ s.listeners <;>
      simpa [applyOp, remove_listener, h] using hx

/-- Running well-formed operations from a state without empty per-topic maps
never creates one. -/
theorem run_noEmpty : ∀ (ops : List Op) (s : ClusterState), noEmptyTopicMaps s →
    wfOps ops = true → noEmptyTopicMaps (run s ops) := by
  intro ops
  induction ops with
  | nil =>
    intro s hs _
    simpa [run] using hs
  | cons op ops ih =>
    intro s hs hw
    simp only [wfOps, List.all_cons, Bool.and_eq_true] at hw
    have h1 : run s (op :: ops) = run (applyOp s op) ops := rfl
    rw [h1]
    exact ih _ (applyOp_noEmpty hs op hw.1) hw.2

/-- C7 counterexample: ingesting a response whose topic list carries a
`NoError` topic with no partition records stores an empty per-topic map, so
`partitions_for_topic` returns the empty set, not the not-found sentinel. -/
theorem C7_counterexample :
    partitions_for_topic
      (run initCluster [Op.updateMeta ⟨[], [(0, "t", [])]⟩ 0]) "t" =
      some (∅ : Finset Int) := by
  decide

/-- C7 (amended): starting from a freshly constructed cache, as long as every
ingested response lists at least one partition record for each `NoError`
topic, `partitions_for_topic` never returns the empty set: every topic is
either not found or mapped to a non-empty set of partition indices. -/
theorem C7_no_empty_partition_sets (ops : List Op) (hops : wfOps ops = true)
    (t : String) : partitions_for_topic (run initCluster ops) t ≠ some ∅ := by
  have hinv : noEmptyTopicMaps (run initCluster ops) := by
    apply run_noEmpty ops initCluster _ hops
    intro e he
    simp [initCluster, mkCluster] at he
  intro hc
  simp only [partitions_for_topic] at hc
  cases hl : lookupA t (run initCluster ops).partitions with
  | none =>
    rw [hl] at hc
    simp at hc
  | some m =>
    rw [hl] at hc
    simp only [Option.map_some'] at hc
    have hm : m = [] := by
      have h1 : keysF m = ∅ := by injection hc
      simp only [keysF, List.toFinset_eq_empty_iff, List.map_eq_nil_iff] at h1
      exact h1
    exact hinv (t, m) (mem_of_lookupA_eq_some hl) hm

/-- Witness for C7 (amended): a well-formed run mixing a successful update, a
requested update and a failed attempt, probed at an unknown topic. -/
theorem C7_no_empty_partition_sets_witness :
    wfOps [Op.updateMeta mdOrders 50, Op.reqUpd,
      Op.failUpd (ClientError.driverError 1) 60] = true ∧
    partitions_for_topic
      (run initCluster [Op.updateMeta mdOrders 50, Op.reqUpd,
        Op.failUpd (ClientError.driverError 1) 60]) "ghost" ≠ some ∅ :=
  ⟨by decide, C7_no_empty_partition_sets _ (by decide) "ghost"⟩

/-- C9: `remove_listener` signals a usage error exactly on a callback not in
the listener set, the lookup operations return a not-found result instead of
failing on any missing key, and after a successful `remove_listener` a
subsequent `update_metadata` never invokes the removed callback. -/
theorem C9_missing_lookups :
    (∀ (s : ClusterState) (l : Nat), remove_listener s l = none ↔ l ∉ s.listeners) ∧
    (∀ (s : ClusterState) (nid : Int), nid ∉ keysF s.brokers →
      broker_metadata s nid = none) ∧
    (∀ (s : ClusterState) (t : String), t ∉ ClusterState.topicsSet s →
      partitions_for_topic s t = none) ∧
    (∀ (s : ClusterState) (tp : TopicPartition), tp.topic ∉ ClusterState.topicsSet s →
      leader_for_partition s tp = none) ∧
    (∀ (s : ClusterState) (tp : TopicPartition) (m : List (Int × Int)),
      lookupA tp.topic s.partitions = some m → tp.partition ∉ keysF m →
      leader_for_partition s tp = none) ∧
    (∀ (s : ClusterState) (g : String), g ∉ keysF s.groups →
      coordinator_for_group s g = none) ∧
    (∀ (s s1 : ClusterState) (l : Nat), remove_listener s l = some s1 →
      ∀ (md : MetadataResponse) (now : Int), l ∉ (update_metadata s1 md now).2) := by
  refine ⟨?_, ?_, ?_, ?_, ?_, ?_, ?_⟩
  · intro s l
    constructor
    · intro h hmem
      simp [remove_listener, hmem] at h
    · intro h
      simp [remove_listener, h]
  · intro s nid h
    exact lookupA_eq_none_of_not_mem_keysF h
  · intro s t h
    have h2 : lookupA t s.partitions = none := lookupA_eq_none_of_not_mem_keysF h
    simp [partitions_for_topic, h2]
  · intro s tp h
    have h2 : lookupA tp.topic s.partitions = none := lookupA_eq_none_of_not_mem_keysF h
    simp [leader_for_partition, h2]
  · intro s tp m hm h
    have h2 : lookupA tp.partition m = none := lookupA_eq_none_of_not_mem_keysF h
    simp [leader_for_partition, hm, h2]
  · intro s g h
    exact lookupA_eq_none_of_not_mem_keysF h
  · intro s s1 l hrem md now
    have hmem : l ∈ s.listeners := by
      by_contra hmem
      simp [remove_listener, hmem] at hrem
    simp only [remove_listener, if_pos hmem, Option.some.injEq] at hrem
    have hs1 : s1.listeners = s.listeners.erase l := by
      rw [← hrem]
    cases hst2 : singleTopicError md with
    | some v =>
      obtain ⟨ec, t⟩ := v
      have hsnd : (update_metadata s1 md now).2 = ∅ := by
        simp [update_metadata, hst2]
      simp [hsnd]
    | none =>
      have hsnd := (update_metadata_success_spec s1 md now hst2).2.2.2.2.2.2.2.2.2.2.2.2.1
      rw [hsnd, hs1]
      exact Finset.not_mem_erase l s.listeners

/-- Witness for C1 (amended): the rebuild exercised on the concrete response
`mdOrders` (distinct topic names, one healthy and one unknown topic). -/
theorem C1_partition_rebuild_witness :
    singleTopicError mdOrders = none ∧
    (mdOrders.topics.map (fun e => e.2.1)).Nodup ∧
    ((∀ t, (partitions_for_topic (update_metadata initCluster mdOrders 50).1 t).isSome ↔
      ∃ e ∈ mdOrders.topics, e.2.1 = t ∧ for_code e.1 = ErrorKind.noError) ∧
     (∀ e ∈ mdOrders.topics, for_code e.1 = ErrorKind.noError →
      partitions_for_topic (update_metadata initCluster mdOrders 50).1 e.2.1 =
        some (e.2.2.map PartitionRecord.partition).toFinset)) :=
  ⟨by decide, by decide,
    C1_partition_rebuild initCluster mdOrders 50 (by decide) (by decide)⟩

end KafkaCluster
